import Mathlib

/-!
Verification development for the Pica AI SDK (TypeScript) action-resolution and
passthrough-execution pipeline.  Strings are embedded as lists of characters;
JavaScript objects are embedded as association lists where a later binding
shadows an earlier one (spread semantics); asynchronous network calls are
embedded as explicit oracle parameters carrying the value the call would have
delivered; the unbounded do-while pagination loop is embedded with explicit
fuel, with the out-of-fuel answer `none` standing for divergence.
-/

/-- Character-list embedding of a JavaScript string. -/
abbrev Str := List Char

/-- Embedding of `String.prototype.startsWith`: `startsWithL s p` is true when
`p` is an initial segment of `s`. -/
def startsWithL : Str → Str → Bool
  | _, [] => true
  | [], _ :: _ => false
  | c :: s, p :: ps => if c = p then startsWithL s ps else false

/-- Embedding of `String.prototype.includes`: `includesL s pat` is true when
`pat` occurs contiguously somewhere in `s`. -/
def includesL : Str → Str → Bool
  | [], pat => startsWithL [] pat
  | c :: cs, pat => startsWithL (c :: cs) pat || includesL cs pat

/-- The canonical namespace token `conn_mod_def::` used by the normalizer. -/
def connModDef : Str := "conn_mod_def::".data

/-- The namespace separator `::`. -/
def nsSep : Str := "::".data

/-- Embedding of `normalizeActionId` (utils, `normalizeActionId`): when the raw
identifier contains `::`, the token `conn_mod_def::` is prepended unless the
identifier already starts with it; an identifier without `::` is returned
unchanged. -/
def normalizeActionId (raw : Str) : Str :=
  if includesL raw nsSep then
    if !(startsWithL raw connModDef) then connModDef ++ raw
    else raw
  else raw

theorem startsWithL_append_self (p s : Str) : startsWithL (p ++ s) p = true := by
  induction p with
  | nil => cases s <;> rfl
  | cons c cs ih => simp [startsWithL, ih]

theorem startsWithL_extend (a b pat : Str) (h : startsWithL a pat = true) :
    startsWithL (a ++ b) pat = true := by
  induction pat generalizing a with
  | nil => cases a ++ b <;> rfl
  | cons p ps ih =>
    cases a with
    | nil => simp [startsWithL] at h
    | cons c cs =>
      simp only [startsWithL, List.cons_append] at h ⊢
      by_cases hc : c = p
      · simp only [hc, if_pos rfl] at h ⊢
        exact ih cs h
      · simp [hc] at h

theorem includesL_append_left (a b pat : Str) (h : includesL a pat = true) :
    includesL (a ++ b) pat = true := by
  induction a with
  | nil =>
    simp only [includesL] at h
    cases pat with
    | nil => cases b <;> simp [includesL, startsWithL]
    | cons p ps => simp [startsWithL] at h
  | cons c cs ih =>
    simp only [includesL, Bool.or_eq_true] at h
    rcases h with h | h
    · simp only [List.cons_append, includesL, Bool.or_eq_true]
      exact Or.inl (startsWithL_extend _ _ _ h)
    · simp only [List.cons_append, includesL, Bool.or_eq_true]
      exact Or.inr (ih h)

theorem startsWithL_iff_append (s p : Str) :
    startsWithL s p = true ↔ ∃ t, s = p ++ t := by
  constructor
  · intro h
    induction p generalizing s with
    | nil => exact ⟨s, rfl⟩
    | cons c cs ih =>
      cases s with
      | nil => simp [startsWithL] at h
      | cons a as =>
        simp only [startsWithL] at h
        by_cases hc : a = c
        · subst hc
          simp only [if_pos rfl] at h
          obtain ⟨t, ht⟩ := ih as h
          exact ⟨t, by simp [ht]⟩
        · simp [hc] at h
  · rintro ⟨t, rfl⟩
    exact startsWithL_append_self p t

theorem includesL_of_startsWith_connModDef (raw : Str)
    (h : startsWithL raw connModDef = true) : includesL raw nsSep = true := by
  obtain ⟨t, rfl⟩ := (startsWithL_iff_append raw connModDef).mp h
  exact includesL_append_left connModDef t nsSep (by decide)

/-- C6: identifier normalization is idempotent: normalizing twice gives the
same result as normalizing once. -/
theorem normalizeActionId_idempotent (raw : Str) :
    normalizeActionId (normalizeActionId raw) = normalizeActionId raw := by
  unfold normalizeActionId
  by_cases hinc : includesL raw nsSep = true
  · by_cases hsw : startsWithL raw connModDef = true
    · simp [hinc, hsw]
    · have h1 : startsWithL (connModDef ++ raw) connModDef = true :=
        startsWithL_append_self connModDef raw
      have h2 : includesL (connModDef ++ raw) nsSep = true :=
        includesL_append_left connModDef raw nsSep (by decide)
      simp [hinc, hsw, h1, h2]
  · simp [hinc]

/-- C2 counterexample: the claim says a bare identifier with no `::` gets the
canonical namespace token prepended, but `normalizeActionId` returns the bare
identifier `send_email` unchanged, which differs from the claimed output. -/
theorem normalizeActionId_bare_unchanged :
    normalizeActionId "send_email".data = "send_email".data ∧
    "send_email".data ≠ connModDef ++ "send_email".data := by
  constructor
  · rfl
  · decide

/-- C2 amended: if the raw identifier starts with `conn_mod_def::` it is
returned unchanged; else if it contains `::` anywhere the token
`conn_mod_def::` is prepended; else (a bare identifier with no `::`) it is
returned unchanged. -/
theorem normalizeActionId_spec :
    (∀ raw : Str, startsWithL raw connModDef = true → normalizeActionId raw = raw) ∧
    (∀ raw : Str, includesL raw nsSep = true → startsWithL raw connModDef = false →
      normalizeActionId raw = connModDef ++ raw) ∧
    (∀ raw : Str, includesL raw nsSep = false → normalizeActionId raw = raw) := by
  refine ⟨fun raw h => ?_, fun raw hinc hsw => ?_, fun raw hinc => ?_⟩
  · have hinc := includesL_of_startsWith_connModDef raw h
    simp [normalizeActionId, hinc, h]
  · simp [normalizeActionId, hinc, hsw]
  · simp [normalizeActionId, hinc]

/-- C2 amended witness: the three branches of the amended normalizer contract,
evaluated at concrete identifiers. -/
theorem normalizeActionId_spec_witness :
    normalizeActionId "conn_mod_def::send_email".data = "conn_mod_def::send_email".data ∧
    normalizeActionId "gmail::send_email".data = connModDef ++ "gmail::send_email".data ∧
    normalizeActionId "send_email".data = "send_email".data :=
  ⟨normalizeActionId_spec.1 "conn_mod_def::send_email".data (by decide),
   normalizeActionId_spec.2.1 "gmail::send_email".data (by decide) (by decide),
   normalizeActionId_spec.2.2 "send_email".data (by decide)⟩

/-- Embedding of a JavaScript (JSON-compatible) runtime value. -/
inductive JValue where
  | jStr (s : Str)
  | jNum (n : Int)
  | jBool (b : Bool)
  | jNull
  | jObj (fields : List (Str × JValue))
  | jArr (elems : List JValue)

/-- JavaScript truthiness of a value (`NaN` is not modelled; numeric values are
embedded as integers). -/
def truthy : JValue → Bool
  | .jStr s => !s.isEmpty
  | .jNum n => decide (n ≠ 0)
  | .jBool b => b
  | .jNull => false
  | .jObj _ => true
  | .jArr _ => true

/-- Truthiness of an optional value, where `none` stands for `undefined`. -/
def truthyOpt : Option JValue → Bool
  | none => false
  | some v => truthy v

/-- JavaScript `typeof value === 'object'` (true for objects, arrays and
`null`). -/
def isObjType : JValue → Bool
  | .jObj _ => true
  | .jArr _ => true
  | .jNull => true
  | _ => false

mutual
/-- Embedding of JavaScript `value.toString()` as used for path substitution.
Directly stringifying `null` throws in JavaScript, but the source only
stringifies truthy values, so the `jNull` case is unreachable there; inside an
array join, `null` renders as the empty string, which is the value used here. -/
def jToString : JValue → Str
  | .jStr s => s
  | .jNum n => (toString n).data
  | .jBool b => if b then "true".data else "false".data
  | .jNull => []
  | .jObj _ => "[object Object]".data
  | .jArr elems => jArrToString elems
/-- Array stringification: elements joined with commas. -/
def jArrToString : List JValue → Str
  | [] => []
  | [v] => jToString v
  | v :: w :: rest => jToString v ++ ',' :: jArrToString (w :: rest)
end

/-- Key lookup in the association-list embedding of a JavaScript object: the
LAST binding of a key wins, so that object spread `\x7b...a, ...b\x7d` can be
embedded as the concatenation `a ++ b`. -/
def jsLookup {α : Type} : List (Str × α) → Str → Option α
  | [], _ => none
  | (k2, v) :: rest, k =>
    match jsLookup rest k with
    | some v2 => some v2
    | none => if k2 = k then some v else none

theorem jsLookup_append {α : Type} (a b : List (Str × α)) (k : Str) :
    jsLookup (a ++ b) k =
      match jsLookup b k with
      | some v => some v
      | none => jsLookup a k := by
  induction a with
  | nil => simp only [List.nil_append]; cases jsLookup b k <;> rfl
  | cons hd tl ih =>
    obtain ⟨k2, v⟩ := hd
    show (match jsLookup (tl ++ b) k with
          | some v2 => some v2
          | none => if k2 = k then some v else none) = _
    rw [ih]
    show _ = (match jsLookup b k with
              | some v => some v
              | none =>
                match jsLookup tl k with
                | some v2 => some v2
                | none => if k2 = k then some v else none)
    cases jsLookup b k <;> cases jsLookup tl k <;> rfl

theorem jsLookup_append_single {α : Type} (l : List (Str × α)) (w : Str) (x : α) (k : Str) :
    jsLookup (l ++ [(w, x)]) k = if w = k then some x else jsLookup l k := by
  rw [jsLookup_append]
  by_cases hw : w = k <;> simp [jsLookup, hw]

theorem jsLookup_filter_ne {α : Type} (l : List (Str × α)) (w k : Str) (hk : k ≠ w) :
    jsLookup (l.filter (fun q => decide (q.1 ≠ w))) k = jsLookup l k := by
  induction l with
  | nil => rfl
  | cons hd tl ih =>
    obtain ⟨k2, v⟩ := hd
    by_cases h2 : k2 = w
    · subst h2
      have hfil : ((k2, v) :: tl).filter (fun q => decide (q.1 ≠ k2)) =
          tl.filter (fun q => decide (q.1 ≠ k2)) := by simp
      rw [hfil, ih]
      show jsLookup tl k = (match jsLookup tl k with
        | some v2 => some v2
        | none => if k2 = k then some v else none)
      rw [if_neg (fun h => hk h.symm)]
      cases jsLookup tl k <;> rfl
    · have hfil : ((k2, v) :: tl).filter (fun q => decide (q.1 ≠ w)) =
          (k2, v) :: tl.filter (fun q => decide (q.1 ≠ w)) := by simp [h2]
      rw [hfil]
      show (match jsLookup (tl.filter (fun q => decide (q.1 ≠ w))) k with
            | some v2 => some v2
            | none => if k2 = k then some v else none) = _
      rw [ih]
      rfl

theorem jsLookup_filter_self {α : Type} (l : List (Str × α)) (w : Str) :
    jsLookup (l.filter (fun q => decide (q.1 ≠ w))) w = none := by
  induction l with
  | nil => rfl
  | cons hd tl ih =>
    obtain ⟨k2, v⟩ := hd
    by_cases h2 : k2 = w
    · subst h2
      have hfil : ((k2, v) :: tl).filter (fun q => decide (q.1 ≠ k2)) =
          tl.filter (fun q => decide (q.1 ≠ k2)) := by simp
      rw [hfil]; exact ih
    · have hfil : ((k2, v) :: tl).filter (fun q => decide (q.1 ≠ w)) =
          (k2, v) :: tl.filter (fun q => decide (q.1 ≠ w)) := by simp [h2]
      rw [hfil]
      show (match jsLookup (tl.filter (fun q => decide (q.1 ≠ w))) w with
            | some v2 => some v2
            | none => if k2 = w then some v else none) = none
      rw [ih, if_neg h2]

/-- Errors thrown by the execute pipeline, carrying the data interpolated into
the JavaScript error messages. -/
inductive PicaErr where
  | connectionNotFound (platform : Str)
  | fetchActionFailed
  | missingVariables (names : List Str)
  | missingPathValue (name : Str)
deriving DecidableEq

/-- Embedding of `match.replace(/\x7b\x7b|\x7d\x7d/g, '')`: removes every
occurrence of the two-character sequences of braces, scanning left to right. -/
def stripBraces : Str → Str
  | [] => []
  | '{' :: '{' :: rest => stripBraces rest
  | '}' :: '}' :: rest => stripBraces rest
  | c :: cs => c :: stripBraces cs

/-- Fuelled scanner for the matches of the template regex: at each position a
match is two opening braces, a maximal nonempty run of characters other than a
closing brace, then two closing braces; on a match the captured run is
recorded and scanning resumes after the match, otherwise scanning advances one
character.  Every step consumes at least one character, so fuel equal to the
length of the string (supplied by `extractVars` below) is never exhausted. -/
def extractVarsF : Nat → Str → List Str
  | 0, _ => []
  | _ + 1, [] => []
  | fuel + 1, c :: cs =>
    match c, cs with
    | '{', '{' :: rest =>
      let run := rest.takeWhile (fun ch => ch ≠ '}')
      if run.isEmpty then extractVarsF fuel cs
      else
        match rest.dropWhile (fun ch => ch ≠ '}') with
        | '}' :: '}' :: rest2 => run :: extractVarsF fuel rest2
        | _ => extractVarsF fuel cs
    | _, _ => extractVarsF fuel cs

/-- Embedding of `path.match(/\x7b\x7b([^\x7d]+)\x7d\x7d/g)` followed by
extraction of the captured variable runs; the empty list stands for the
`null` result of `match`. -/
def extractVars (path : Str) : List Str := extractVarsF path.length path

/-- The required path-variable names of a template: each regex match, with
every brace pair stripped from the full matched text (embedding of
`templateVariables.map(v => v.replace(/\x7b\x7b|\x7d\x7d/g, ''))`). -/
def requiredVarsOf (path : Str) : List Str :=
  (extractVars path).map (fun r => stripBraces (('{' :: '{' :: r) ++ ['}', '}']))

/-- Fuelled embedding of `replacePathVariables` (pica.ts, `replacePathVariables`;
also exported from the utils file): substitutes every template match by the
string form of the variable's value and throws on the first absent-or-falsy
value, naming that variable.  Fuel as in `extractVarsF`. -/
def replacePathVariablesF (vars : List (Str × JValue)) :
    Nat → Str → Except PicaErr Str
  | 0, _ => Except.ok []
  | fuel + 1, path =>
    match path with
    | [] => Except.ok []
    | c :: cs =>
      if c = '{' then
        match cs with
        | [] => (replacePathVariablesF vars fuel []).map (fun s => c :: s)
        | c2 :: rest =>
          if c2 = '{' then
            if (rest.takeWhile (fun ch => ch ≠ '}')).isEmpty then
              (replacePathVariablesF vars fuel cs).map (fun s => c :: s)
            else
              match rest.dropWhile (fun ch => ch ≠ '}') with
              | [] => (replacePathVariablesF vars fuel cs).map (fun s => c :: s)
              | [_] => (replacePathVariablesF vars fuel cs).map (fun s => c :: s)
              | a1 :: a2 :: rest2 =>
                if a1 = '}' ∧ a2 = '}' then
                  match jsLookup vars (rest.takeWhile (fun ch => ch ≠ '}')) with
                  | some v =>
                    if truthy v then
                      (replacePathVariablesF vars fuel rest2).map
                        (fun s => jToString v ++ s)
                    else Except.error
                      (PicaErr.missingPathValue (rest.takeWhile (fun ch => ch ≠ '}')))
                  | none => Except.error
                      (PicaErr.missingPathValue (rest.takeWhile (fun ch => ch ≠ '}')))
                else (replacePathVariablesF vars fuel cs).map (fun s => c :: s)
          else (replacePathVariablesF vars fuel cs).map (fun s => c :: s)
      else (replacePathVariablesF vars fuel cs).map (fun s => c :: s)

/-- Embedding of a call `replacePathVariables(path, variables)`. -/
def replacePathVariables (vars : List (Str × JValue)) (path : Str) :
    Except PicaErr Str :=
  replacePathVariablesF vars path.length path

/-- One page of a paginated upstream response (the `skip`/`limit` echo fields
play no role in the drainer's logic and are omitted). -/
structure Page (T : Type) where
  rows : List T
  total : Nat
deriving DecidableEq

/-- Fuelled embedding of the do-while loop of `paginateResults` (utils and
pica.ts, `paginateResults`): fetch a page, append its rows, remember its
reported total, advance `skip` by `limit` whatever the page contained, and
loop while fewer rows than the last reported total have been accumulated.  A
fetch error is propagated and the accumulated rows are discarded.  The answer
`none` means the fuel ran out, standing for non-termination of the unbounded
source loop. -/
def paginateGo {T E : Type} (fetchFn : Nat → Nat → Except E (Page T)) (limit : Nat) :
    Nat → Nat → List T → Option (Except E (List T))
  | 0, _, _ => none
  | fuel + 1, skip, acc =>
    match fetchFn skip limit with
    | Except.error e => some (Except.error e)
    | Except.ok page =>
      let acc2 := acc ++ page.rows
      if acc2.length < page.total then paginateGo fetchFn limit fuel (skip + limit) acc2
      else some (Except.ok acc2)

/-- Embedding of a call `paginateResults(fetchFn, limit)` (the source defaults
`limit` to 100), starting at skip 0 with no accumulated rows. -/
def paginateResults {T E : Type} (fetchFn : Nat → Nat → Except E (Page T))
    (limit fuel : Nat) : Option (Except E (List T)) :=
  paginateGo fetchFn limit fuel 0 []

/-- A well-behaved page source backed by a fixed list: the page at `skip` is
the slice of at most `limit` rows starting there, and the reported total is
the length of the list. -/
def listSource {T : Type} (allRows : List T) : Nat → Nat → Except Unit (Page T) :=
  fun skip limit => Except.ok ⟨(allRows.drop skip).take limit, allRows.length⟩

theorem paginateGo_listSource {T : Type} (allRows : List T) (limit : Nat) :
    ∀ fuel skip, allRows.length ≤ skip + fuel * limit →
      paginateGo (listSource allRows) limit (fuel + 1) skip (allRows.take skip) =
        some (Except.ok allRows) := by
  intro fuel
  induction fuel with
  | zero =>
    intro skip h
    simp only [Nat.zero_mul, Nat.add_zero] at h
    simp only [paginateGo, listSource]
    rw [← List.take_add]
    have hlen : (allRows.take (skip + limit)).length = allRows.length := by
      rw [List.length_take]
      omega
    rw [hlen, if_neg (lt_irrefl _)]
    rw [List.take_of_length_le (by omega)]
  | succ f ih =>
    intro skip h
    simp only [paginateGo, listSource]
    rw [← List.take_add]
    by_cases hlt : skip + limit < allRows.length
    · have hlen : (allRows.take (skip + limit)).length = skip + limit := by
        rw [List.length_take]; omega
      rw [hlen, if_pos (by omega)]
      exact ih (skip + limit)
        (by have hm : (f + 1) * limit = f * limit + limit := by ring
            omega)
    · have hlen : (allRows.take (skip + limit)).length = allRows.length := by
        rw [List.length_take]; omega
      rw [hlen, if_neg (lt_irrefl _)]
      rw [List.take_of_length_le (by omega)]

/-- C7: for a page source backed by a fixed list of N rows that reports
total N and serves the rows in order in pages of at most `limit`, the drainer
returns exactly the whole list in page order, for every N (in particular 0, 1,
limit, limit+1 and 3*limit) and with fuel covering the page count. -/
theorem paginateResults_complete {T : Type} (allRows : List T) (limit fuel : Nat)
    (hf : allRows.length ≤ fuel * limit) :
    paginateResults (listSource allRows) limit (fuel + 1) =
      some (Except.ok allRows) := by
  have h := paginateGo_listSource allRows limit fuel 0 (by omega)
  simpa [paginateResults] using h

/-- C7 witness: three rows drained with page size two in two pages. -/
theorem paginateResults_complete_witness :
    ([10, 20, 30] : List Nat).length ≤ 2 * 2 ∧
    paginateResults (listSource [10, 20, 30]) 2 (2 + 1) =
      some (Except.ok [10, 20, 30]) :=
  ⟨by decide, paginateResults_complete [10, 20, 30] 2 2 (by decide)⟩

/-- A page source that always answers an empty rows array with an unchanged
positive total. -/
def emptySource (t : Nat) : Nat → Nat → Except Unit (Page Nat) :=
  fun _ _ => Except.ok ⟨[], t⟩

/-- A page source whose first page (skip 0) is empty with total 5 and whose
later pages carry all five rows. -/
def stutterSource : Nat → Nat → Except Unit (Page Nat) :=
  fun skip _ => if skip = 0 then Except.ok ⟨[], 5⟩ else Except.ok ⟨[1, 2, 3, 4, 5], 5⟩

/-- C10 counterexample: the claim says the drainer terminates only if every
successful fetch below the total returns at least one row; but against
`stutterSource`, whose first fetch returns zero rows while zero accumulated
rows are below the total of five, the drainer still terminates with all five
rows on the second page. -/
theorem paginate_terminates_after_empty_page :
    stutterSource 0 100 = Except.ok ⟨[], 5⟩ ∧
    ([] : List Nat).length < 5 ∧
    paginateResults stutterSource 100 3 = some (Except.ok [1, 2, 3, 4, 5]) :=
  ⟨rfl, by decide, rfl⟩

/-- C10 amended: the skip offset grows by the fixed limit on every iteration
regardless of the rows returned, and the loop exits only when the accumulated
rows reach the last reported total; hence a page source that always answers an
empty rows array with an unchanged positive total makes the loop run forever
(no fuel suffices), while a source that always reports the same total and
always returns at least one row terminates once the fuel covers the row
count. -/
theorem paginateGo_divergence_and_termination :
    (∀ t : Nat, 0 < t → ∀ fuel skip limit : Nat,
        paginateGo (emptySource t) limit fuel skip [] = none) ∧
    (∀ (T : Type) (f : Nat → Nat → Except Unit (Page T)) (N limit : Nat),
        (∀ s l, ∃ p : Page T, f s l = Except.ok p ∧ p.total = N ∧ p.rows ≠ []) →
        ∀ fuel skip acc, N ≤ acc.length + fuel →
          ∃ r, paginateGo f limit (fuel + 1) skip acc = some r) := by
  constructor
  · intro t ht fuel
    induction fuel with
    | zero => intro skip limit; rfl
    | succ f ih =>
      intro skip limit
      simp only [paginateGo, emptySource, List.append_nil, List.length_nil]
      rw [if_pos ht]
      exact ih (skip + limit) limit
  · intro T f N limit hsrc fuel
    induction fuel with
    | zero =>
      intro skip acc h
      obtain ⟨p, hf, ht, hr⟩ := hsrc skip limit
      refine ⟨Except.ok (acc ++ p.rows), ?_⟩
      simp only [paginateGo, hf]
      rw [if_neg (by rw [ht]; simp; omega)]
    | succ fl ih =>
      intro skip acc h
      obtain ⟨p, hf, ht, hr⟩ := hsrc skip limit
      by_cases hlt : (acc ++ p.rows).length < p.total
      · have hrows : 1 ≤ p.rows.length := by
          cases hp : p.rows with
          | nil => exact absurd hp hr
          | cons a l => simp
        obtain ⟨r, hrec⟩ := ih (skip + limit) (acc ++ p.rows)
          (by rw [List.length_append]; omega)
        refine ⟨r, ?_⟩
        simp only [paginateGo, hf]
        rw [if_pos hlt]
        exact hrec
      · refine ⟨Except.ok (acc ++ p.rows), ?_⟩
        simp only [paginateGo, hf]
        rw [if_neg hlt]

/-- C10 amended witness: divergence of the always-empty source at a concrete
fuel, and termination for a concrete one-row-per-page source with total 2. -/
theorem paginateGo_divergence_and_termination_witness :
    (0 < 1 ∧ paginateGo (emptySource 1) 7 4 0 [] = none) ∧
    (∃ r, paginateGo (fun _ _ => (Except.ok ⟨[9], 2⟩ : Except Unit (Page Nat))) 7 (2 + 1) 0 [] = some r) :=
  ⟨⟨by decide, paginateGo_divergence_and_termination.1 1 (by decide) 4 0 7⟩,
   paginateGo_divergence_and_termination.2 Nat (fun _ _ => Except.ok ⟨[9], 2⟩) 2 7
     (fun _ _ => ⟨⟨[9], 2⟩, rfl, rfl, by decide⟩) 2 0 [] (by decide)⟩

/-- Header names and content-type literals used by the pipeline. -/
def ctKey : Str := "Content-Type".data

/-- The credential header name. -/
def secretKey : Str := "x-pica-secret".data

/-- The connection-key header name. -/
def connKeyHdr : Str := "x-pica-connection-key".data

/-- The action-id header name. -/
def actionIdHdr : Str := "x-pica-action-id".data

/-- The default JSON content type. -/
def ctJson : Str := "application/json".data

/-- The multipart content type. -/
def ctMultipart : Str := "multipart/form-data".data

/-- The url-encoded content type. -/
def ctUrlenc : Str := "application/x-www-form-urlencoded".data

/-- Embedding of `generateHeaders` (pica.ts): the base header object carrying
the JSON content type and the raw instance secret. -/
def generateHeaders (secret : Str) : List (Str × JValue) :=
  [(ctKey, JValue.jStr ctJson), (secretKey, JValue.jStr secret)]

/-- The request body parameter `data` of the execute tool, which the pipeline
distinguishes only as a plain object, an array, or absent (`z.any()` also
admits scalars, which none of the modelled behaviours exercise). -/
inductive DataPayload where
  | undef
  | obj (fields : List (Str × JValue))
  | arr (elems : List JValue)

/-- A multipart or url-encoded form field value: object-typed values are
JSON-stringified before insertion, scalars are inserted as they are.  The
embedding keeps the value structured and records which rule applied. -/
inductive FormVal where
  | stringifiedJson (v : JValue)
  | asIs (v : JValue)

/-- The body attached to an outbound request: the raw JSON payload, a
multipart form, or a url-encoded form. -/
inductive BodyData where
  | raw (d : DataPayload)
  | form (entries : List (Str × FormVal))
  | urlenc (entries : List (Str × FormVal))

/-- The form-construction loop shared by the multipart and url-encoded
branches of `executePassthrough`: fields are taken from `data` only when it is
a non-array object; object-typed values are JSON-stringified, scalars are
appended directly. -/
def formEntries : DataPayload → List (Str × FormVal)
  | .obj fields =>
    fields.map (fun q =>
      (q.1, if isObjType q.2 then FormVal.stringifiedJson q.2 else FormVal.asIs q.2))
  | _ => []

/-- Embedding of the `RequestConfig` record (types/connection.ts): the fully
built outbound request. -/
structure RequestConfig where
  url : Str
  method : Option Str
  headers : List (Str × JValue)
  params : Option (List (Str × JValue))
  data : Option BodyData

/-- ASCII lowercasing, embedding `String.prototype.toLowerCase` on the method
strings involved. -/
def strToLower (s : Str) : Str := s.map Char.toLower

/-- Embedding of the test `method?.toLowerCase() === 'get'` (with `none`
standing for an undefined method, which compares unequal). -/
def isGetMethod : Option Str → Bool
  | some m => decide (strToLower m = "get".data)
  | none => false

/-- Embedding of the request-building part of `executePassthrough` (pica.ts):
header assembly with later spreads overriding earlier ones, URL concatenation
under `/v1/passthrough`, and body selection by method and form flags.  The
`formHeaders` parameter is the header object produced by the form-data
library's `getHeaders()` (its multipart boundary is generated at run time, so
it enters the model as an oracle); it is merged into the headers exactly when
the multipart branch runs, mirroring the `Object.assign` in the source. -/
def executePassthroughRequest (secret baseUrl actionId connectionKey : Str)
    (data : DataPayload) (path : Str) (method : Option Str)
    (queryParams : Option (List (Str × JValue)))
    (headers : Option (List (Str × JValue)))
    (isFormData isFormUrlEncoded : Bool)
    (formHeaders : List (Str × JValue)) : RequestConfig :=
  let newHeaders :=
    generateHeaders secret ++
    [(connKeyHdr, JValue.jStr connectionKey), (actionIdHdr, JValue.jStr actionId)] ++
    (if isFormData then [(ctKey, JValue.jStr ctMultipart)] else []) ++
    (if isFormUrlEncoded then [(ctKey, JValue.jStr ctUrlenc)] else []) ++
    headers.getD []
  let url := baseUrl ++ "/v1/passthrough".data ++
    (if startsWithL path "/".data then path else '/' :: path)
  let base : RequestConfig :=
    { url := url, method := method, headers := newHeaders,
      params := queryParams, data := none }
  if isGetMethod method then base
  else if isFormData then
    { base with data := some (BodyData.form (formEntries data)),
                headers := newHeaders ++ formHeaders }
  else if isFormUrlEncoded then
    { base with data := some (BodyData.urlenc (formEntries data)) }
  else
    { base with data := some (BodyData.raw data) }

/-- Embedding of a vault connection, keeping the fields the modelled logic
reads (`key`, `platform`, `active`); the remaining fields of the TypeScript
interface never influence the claims' code paths. -/
structure Connection where
  key : Str
  platform : Str
  active : Bool
deriving DecidableEq

/-- The in-memory state of a `Pica` instance: the construction secret, the
base URL and the `connections` array. -/
structure PicaState where
  secret : Str
  baseUrl : Str
  connections : List Connection

/-- The default base URL baked into the class. -/
def defaultBaseUrl : Str := "https://api.picaos.com".data

/-- The instance state right after the constructor returns and before the
asynchronous initialization resolves: the constructor sets `connections` to
the empty array before launching `initialize()`. -/
def constructorState (secret : Str) : PicaState :=
  { secret := secret, baseUrl := defaultBaseUrl, connections := [] }

/-- The instance state after `initializeConnections` has stored the rows
fetched from the vault. -/
def initializedState (secret : Str) (rows : List Connection) : PicaState :=
  { secret := secret, baseUrl := defaultBaseUrl, connections := rows }

/-- Embedding of the connection filter in the constructor's post-initialization
continuation (pica.ts constructor): keep active connections, then, when a
connectors option was supplied (including the empty array, which is truthy in
JavaScript), keep only connections whose key is listed. -/
def surfacedConnections (connections : List Connection)
    (connectors : Option (List Str)) : List Connection :=
  let filtered := connections.filter (fun c => c.active)
  match connectors with
  | some ks => filtered.filter (fun c => decide (c.key ∈ ks))
  | none => filtered

/-- The single action record fetched by `getSingleAction`; only presence or
absence of a result influences the built request (`title` and `knowledge`
decorate the success envelope). -/
structure AvailableAction where
  title : Str
  knowledge : Str

/-- The parameters of the execute tool call (the declared zod shape). -/
structure ExecParams where
  platform : Str
  actionId : Str
  actionPath : Str
  method : Str
  connectionKey : Str
  data : DataPayload
  pathVariables : Option (List (Str × JValue))
  queryParams : Option (List (Str × JValue))
  headers : Option (List (Str × JValue))
  isFormData : Bool
  isFormUrlEncoded : Bool

/-- Embedding of the forEach that moves required path variables out of the
body (pica.ts, execute tool): for each required name in order, when the body
holds a truthy value for it and the path-variables object does not, the value
is appended to the path variables (creating the object if absent) and the key
is deleted from the body. -/
def moveVarsObj : List Str → List (Str × JValue) → Option (List (Str × JValue)) →
    List (Str × JValue) × Option (List (Str × JValue))
  | [], fs, pv => (fs, pv)
  | v :: vs, fs, pv =>
    match jsLookup fs v with
    | some x =>
      if truthy x && !(truthyOpt (jsLookup (pv.getD []) v)) then
        moveVarsObj vs (fs.filter (fun q => decide (q.1 ≠ v)))
          (some (pv.getD [] ++ [(v, x)]))
      else moveVarsObj vs fs pv
    | none => moveVarsObj vs fs pv

/-- The move step lifted to the payload: it only runs when the body is a
non-array object; an absent body leaves every guard false and an array body is
skipped by the surrounding `Array.isArray` test. -/
def moveVars (required : List Str) (data : DataPayload)
    (pv : Option (List (Str × JValue))) :
    DataPayload × Option (List (Str × JValue)) :=
  match data with
  | .obj fields =>
    let r := moveVarsObj required fields pv
    (DataPayload.obj r.1, r.2)
  | d => (d, pv)

/-- The top-level keys available from the body for path variables: the
object's fields, or nothing when the body is an array or absent. -/
def bodyFields : DataPayload → List (Str × JValue)
  | .obj fs => fs
  | _ => []

/-- Embedding of the execute tool body (pica.ts, `oneTool.execute`) up to the
point where the outbound request is handed to the HTTP client, in source
order: the connection-key membership test over the instance's `connections`
array, the single-action fetch (whose delivered result is the oracle
`fetchedAction`, `none` standing for the generic fetch failure), the
template-variable scan, the aggregate missing-variable check over body keys
and path variables (path variables spread last), the move step, and path
resolution; the value returned is the request that would be dispatched.  The
source's intermediate consts (requiredVariables, combinedVariables,
missingVariables) are inlined as the corresponding expressions.  Note the tool
reads `st.connections` directly: no await of the initialization signal
precedes the read. -/
def executeToolRequest (st : PicaState) (fetchedAction : Option AvailableAction)
    (formHeaders : List (Str × JValue)) (p : ExecParams) :
    Except PicaErr RequestConfig :=
  if ∃ c ∈ st.connections, c.key = p.connectionKey then
    match fetchedAction with
    | none => Except.error PicaErr.fetchActionFailed
    | some _fullAction =>
      if (extractVars p.actionPath).isEmpty then
        Except.ok (executePassthroughRequest st.secret st.baseUrl p.actionId
          p.connectionKey p.data p.actionPath (some p.method) p.queryParams
          p.headers p.isFormData p.isFormUrlEncoded formHeaders)
      else
        if ((requiredVarsOf p.actionPath).filter (fun v =>
              !(truthyOpt (jsLookup (bodyFields p.data ++ p.pathVariables.getD []) v)))).isEmpty then
          match replacePathVariables
              ((moveVars (requiredVarsOf p.actionPath) p.data p.pathVariables).2.getD [])
              p.actionPath with
          | Except.error e => Except.error e
          | Except.ok resolvedPath =>
            Except.ok (executePassthroughRequest st.secret st.baseUrl p.actionId
              p.connectionKey
              (moveVars (requiredVarsOf p.actionPath) p.data p.pathVariables).1
              resolvedPath (some p.method) p.queryParams
              p.headers p.isFormData p.isFormUrlEncoded formHeaders)
        else
          Except.error (PicaErr.missingVariables
            ((requiredVarsOf p.actionPath).filter (fun v =>
              !(truthyOpt (jsLookup (bodyFields p.data ++ p.pathVariables.getD []) v)))))
  else Except.error (PicaErr.connectionNotFound p.platform)

theorem exceptMap_error {α β γ : Type} (g : α → β) (x : Except γ α) (e : γ)
    (h : x.map g = Except.error e) : x = Except.error e := by
  cases x with
  | error a => simpa [Except.map] using h
  | ok a => simp [Except.map] at h

theorem replacePathVariablesF_error_shape (vs : List (Str × JValue)) :
    ∀ fuel path e, replacePathVariablesF vs fuel path = Except.error e →
      ∃ name, e = PicaErr.missingPathValue name := by
  intro fuel
  induction fuel with
  | zero => intro path e h; exact Except.noConfusion h
  | succ f ih =>
    intro path e h
    cases path with
    | nil => exact Except.noConfusion h
    | cons c cs =>
      simp only [replacePathVariablesF] at h
      repeat' split at h
      all_goals try exact ⟨_, (Except.error.inj h).symm⟩
      all_goals exact ih _ _ (exceptMap_error _ _ _ h)

theorem replacePathVariables_error_shape (vs : List (Str × JValue)) (path : Str)
    (e : PicaErr) (h : replacePathVariables vs path = Except.error e) :
    ∃ name, e = PicaErr.missingPathValue name :=
  replacePathVariablesF_error_shape vs path.length path e h

/-- A concrete active connection for the examples. -/
def gmailConn : Connection :=
  { key := "conn_1".data, platform := "gmail".data, active := true }

/-- A concrete inactive connection of another platform. -/
def staleConn : Connection :=
  { key := "k".data, platform := "slack".data, active := false }

/-- A concrete fetched action record. -/
def exAction : AvailableAction :=
  { title := "Send Email".data, knowledge := "docs".data }

/-- A concrete construction secret. -/
def exSecret : Str := "sk-live-secret".data

/-- Execute parameters of the end-to-end example: a templated path and a body
carrying the path variable and one payload field. -/
def exParams : ExecParams :=
  { platform := "gmail".data
    actionId := "conn_mod_def::send_email".data
    actionPath := "/messages/\x7b\x7bid\x7d\x7d".data
    method := "POST".data
    connectionKey := "conn_1".data
    data := DataPayload.obj
      [("id".data, JValue.jStr "42".data), ("subject".data, JValue.jStr "hi".data)]
    pathVariables := none
    queryParams := none
    headers := none
    isFormData := false
    isFormUrlEncoded := false }

/-- Execute parameters with a plain path and no body, aimed at `staleConn`'s
key while naming the platform gmail. -/
def plainParams : ExecParams :=
  { platform := "gmail".data
    actionId := "conn_mod_def::get_profile".data
    actionPath := "/profile".data
    method := "GET".data
    connectionKey := "k".data
    data := DataPayload.undef
    pathVariables := none
    queryParams := none
    headers := none
    isFormData := false
    isFormUrlEncoded := false }

/-- Execute parameters like `exParams` but whose path names two variables that
no source provides. -/
def twoVarParams : ExecParams :=
  { platform := "gmail".data
    actionId := "conn_mod_def::update_row".data
    actionPath := "/a/\x7b\x7bx\x7d\x7d/b/\x7b\x7by\x7d\x7d".data
    method := "POST".data
    connectionKey := "conn_1".data
    data := DataPayload.undef
    pathVariables := none
    queryParams := none
    headers := none
    isFormData := false
    isFormUrlEncoded := false }

/-- C3 counterexample: the claim says the connectors list containing the
wildcard entry surfaces all active connections unfiltered; but with one active
connection whose key is `conn_1` and the option `["*"]`, the filter keeps only
keys literally equal to `*`, so nothing is surfaced. -/
theorem surfacedConnections_wildcard_empty :
    surfacedConnections [gmailConn] (some ["*".data]) = [] ∧
    [gmailConn].filter (fun c => c.active) = [gmailConn] ∧
    ([] : List Connection) ≠ [gmailConn] := by
  refine ⟨rfl, rfl, ?_⟩
  decide

/-- C3 amended: an empty connectors allow-list surfaces no connections even
when active connections exist, and the list `["*"]` is not a wildcard: it
surfaces exactly the active connections whose key is the literal one-character
string `*`. -/
theorem surfacedConnections_gate :
    (∀ conns : List Connection, surfacedConnections conns (some []) = []) ∧
    (∀ conns : List Connection,
      surfacedConnections conns (some ["*".data]) =
        (conns.filter (fun c => c.active)).filter
          (fun c => decide (c.key = "*".data))) := by
  constructor
  · intro conns
    simp [surfacedConnections]
  · intro conns
    simp [surfacedConnections]

/-- C5 amended: the execute tool does not await the one-time initialization
signal; invoked on the post-construction, pre-initialization state, whose
connections array is still the empty array set by the constructor, it observes
that empty state and fails with the connection-not-found error for every
parameter object, fetched action and form-header oracle. -/
theorem executeTool_preInit (secret : Str) (fa : Option AvailableAction)
    (fh : List (Str × JValue)) (p : ExecParams) :
    executeToolRequest (constructorState secret) fa fh p =
      Except.error (PicaErr.connectionNotFound p.platform) := by
  unfold executeToolRequest constructorState
  simp

/-- C5 counterexample: a caller invoking execute after construction but before
initialization resolves observes the pre-initialization empty connections
array — the call fails with connection-not-found — while the identical call on
the initialized state succeeds. -/
theorem executeTool_preInit_observed :
    executeToolRequest (constructorState exSecret) (some exAction) [] exParams =
      Except.error (PicaErr.connectionNotFound "gmail".data) ∧
    (executeToolRequest (initializedState exSecret [gmailConn]) (some exAction) []
        exParams).isOk = true := by
  constructor
  · rfl
  · rfl

/-- C4 counterexample: the claim says the check admits only keys of active
connections of the target platform; but with the fetched connections array
holding only an inactive slack connection with key `k`, executing against
platform gmail with key `k` passes the check and produces a request instead of
the connection-not-found failure. -/
theorem executeTool_admits_inactive_foreign_key :
    (∀ c ∈ [staleConn], ¬(c.active = true ∧ c.platform = "gmail".data)) ∧
    (executeToolRequest (initializedState exSecret [staleConn]) (some exAction) []
        plainParams).isOk = true := by
  refine ⟨?_, rfl⟩
  decide

/-- C4 amended: the execute tool fails with the connection-not-found error
exactly when the supplied connection key is absent from the instance's fetched
connections array; the membership test compares keys only, ignoring the active
flag and the platform, and a failed check yields an error rather than any
outbound request. -/
theorem executeTool_connection_check (st : PicaState) (fa : Option AvailableAction)
    (fh : List (Str × JValue)) (p : ExecParams) :
    executeToolRequest st fa fh p =
        Except.error (PicaErr.connectionNotFound p.platform) ↔
      ¬ ∃ c ∈ st.connections, c.key = p.connectionKey := by
  unfold executeToolRequest
  by_cases hex : ∃ c ∈ st.connections, c.key = p.connectionKey
  · rw [if_pos hex]
    simp only [hex, not_true_eq_false, iff_false]
    intro h
    repeat' split at h
    all_goals try exact Except.noConfusion h
    all_goals try exact PicaErr.noConfusion (Except.error.inj h)
    all_goals
      rename_i e heq
      obtain ⟨name, hn⟩ := replacePathVariables_error_shape _ _ e heq
      rw [hn] at h
      exact PicaErr.noConfusion (Except.error.inj h)
  · rw [if_neg hex]
    simp [hex]

/-- C1: evaluation at the failing input: a successful execute invocation hands
back (inside the success envelope, as `requestConfig`) the very request object
that was dispatched, and its credential header `x-pica-secret` still equals
the raw secret supplied at construction — no stage of the pipeline replaces it
with a redaction placeholder. -/
theorem executeTool_returns_raw_secret :
    (executeToolRequest (initializedState exSecret [gmailConn]) (some exAction) []
        exParams).map (fun cfg => jsLookup cfg.headers secretKey) =
      Except.ok (some (JValue.jStr exSecret)) ∧
    (initializedState exSecret [gmailConn]).secret = exSecret :=
  ⟨rfl, rfl⟩

theorem moveVarsObj_stable (vs : List Str) :
    ∀ (fields : List (Str × JValue)) (pv : Option (List (Str × JValue))) (v : Str),
      v ∉ vs →
      jsLookup (moveVarsObj vs fields pv).1 v = jsLookup fields v ∧
      jsLookup ((moveVarsObj vs fields pv).2.getD []) v = jsLookup (pv.getD []) v := by
  induction vs with
  | nil => intro fields pv v _; exact ⟨rfl, rfl⟩
  | cons w ws ih =>
    intro fields pv v hv
    have hvw : v ≠ w := by
      intro hh; exact hv (hh ▸ List.mem_cons_self w ws)
    have hv2 : v ∉ ws := fun hh => hv (List.mem_cons_of_mem w hh)
    simp only [moveVarsObj]
    split
    · rename_i x hl
      split
      · obtain ⟨h1, h2⟩ := ih (fields.filter (fun q => decide (q.1 ≠ w)))
          (some (pv.getD [] ++ [(w, x)])) v hv2
        refine ⟨?_, ?_⟩
        · rw [h1, jsLookup_filter_ne _ _ _ hvw]
        · rw [h2]
          show jsLookup (pv.getD [] ++ [(w, x)]) v = _
          rw [jsLookup_append_single, if_neg (fun hh => hvw hh.symm)]
      · exact ih fields pv v hv2
    · exact ih fields pv v hv2

theorem moveVarsObj_moves (required : List Str) :
    ∀ (fields : List (Str × JValue)) (pv : Option (List (Str × JValue)))
      (v : Str) (x : JValue),
      required.Nodup → v ∈ required →
      jsLookup fields v = some x → truthy x = true →
      truthyOpt (jsLookup (pv.getD []) v) = false →
      jsLookup ((moveVarsObj required fields pv).2.getD []) v = some x ∧
      jsLookup (moveVarsObj required fields pv).1 v = none := by
  induction required with
  | nil => intro _ _ v _ _ hv; exact absurd hv (List.not_mem_nil v)
  | cons w ws ih =>
    intro fields pv v x hnd hv hf hx hpv
    have hnd2 : ws.Nodup := (List.nodup_cons.mp hnd).2
    have hwnotin : w ∉ ws := (List.nodup_cons.mp hnd).1
    simp only [moveVarsObj]
    by_cases hvw : v = w
    · subst hvw
      split
      · rename_i x2 heq
        rw [hf] at heq
        injection heq with hxe
        subst hxe
        split
        · obtain ⟨h1, h2⟩ := moveVarsObj_stable ws
            (fields.filter (fun q => decide (q.1 ≠ v)))
            (some (pv.getD [] ++ [(v, x)])) v hwnotin
          refine ⟨?_, ?_⟩
          · rw [h2]
            show jsLookup (pv.getD [] ++ [(v, x)]) v = some x
            rw [jsLookup_append_single, if_pos rfl]
          · rw [h1, jsLookup_filter_self]
        · rename_i hg
          exact absurd
            (show (truthy x && !(truthyOpt (jsLookup (pv.getD []) v))) = true by
              rw [hx, hpv]; rfl)
            hg
      · rename_i heq
        rw [hf] at heq
        exact Option.noConfusion heq
    · have hvin : v ∈ ws := by
        rcases List.mem_cons.mp hv with hh | hh
        · exact absurd hh hvw
        · exact hh
      split
      · rename_i y heq
        split
        · refine ih _ _ v x hnd2 hvin ?_ hx ?_
          · rw [jsLookup_filter_ne _ _ _ hvw]; exact hf
          · show truthyOpt (jsLookup (pv.getD [] ++ [(w, y)]) v) = false
            rw [jsLookup_append_single, if_neg (fun hh => hvw hh.symm)]
            exact hpv
        · exact ih fields pv v x hnd2 hvin hf hx hpv
      · exact ih fields pv v x hnd2 hvin hf hx hpv

/-- C8: when some required path variable of the templated action path is a key
of neither the non-array body object nor the explicit path-variables object,
the execute tool fails — before invoking the path resolver — with the single
aggregated missing-variables error, and the error's list contains every
required variable that is truthy in neither source, not just the first. -/
theorem executeTool_missing_aggregated (st : PicaState) (a : AvailableAction)
    (fh : List (Str × JValue)) (p : ExecParams) (v0 : Str)
    (hconn : ∃ c ∈ st.connections, c.key = p.connectionKey)
    (hv0 : v0 ∈ requiredVarsOf p.actionPath)
    (hbody : jsLookup (bodyFields p.data) v0 = none)
    (hpv : jsLookup (p.pathVariables.getD []) v0 = none) :
    executeToolRequest st (some a) fh p =
      Except.error (PicaErr.missingVariables
        ((requiredVarsOf p.actionPath).filter (fun v =>
          !(truthyOpt (jsLookup (bodyFields p.data ++ p.pathVariables.getD []) v))))) ∧
    ∀ v ∈ requiredVarsOf p.actionPath,
      jsLookup (bodyFields p.data ++ p.pathVariables.getD []) v = none →
      v ∈ (requiredVarsOf p.actionPath).filter (fun v =>
          !(truthyOpt (jsLookup (bodyFields p.data ++ p.pathVariables.getD []) v))) := by
  have hcomb : jsLookup (bodyFields p.data ++ p.pathVariables.getD []) v0 = none := by
    rw [jsLookup_append, hpv]
    exact hbody
  have hpred :
      (!(truthyOpt (jsLookup (bodyFields p.data ++ p.pathVariables.getD []) v0))) = true := by
    rw [hcomb]; rfl
  have hmem : v0 ∈ (requiredVarsOf p.actionPath).filter (fun v =>
      !(truthyOpt (jsLookup (bodyFields p.data ++ p.pathVariables.getD []) v))) :=
    List.mem_filter.mpr ⟨hv0, hpred⟩
  have hmissing : ((requiredVarsOf p.actionPath).filter (fun v =>
      !(truthyOpt (jsLookup (bodyFields p.data ++ p.pathVariables.getD []) v)))).isEmpty
        = false := by
    cases hfe : (requiredVarsOf p.actionPath).filter (fun v =>
        !(truthyOpt (jsLookup (bodyFields p.data ++ p.pathVariables.getD []) v))) with
    | nil => rw [hfe] at hmem; exact absurd hmem (List.not_mem_nil v0)
    | cons y ys => rfl
  have htv : (extractVars p.actionPath).isEmpty = false := by
    cases hev : extractVars p.actionPath with
    | nil =>
      rw [requiredVarsOf, hev] at hv0
      exact absurd hv0 (List.not_mem_nil v0)
    | cons y ys => rfl
  constructor
  · simp only [executeToolRequest]
    rw [if_pos hconn]
    rw [if_neg (by rw [htv]; exact Bool.false_ne_true)]
    rw [if_neg (by rw [hmissing]; exact Bool.false_ne_true)]
  · intro v hvr hnone
    refine List.mem_filter.mpr ⟨hvr, ?_⟩
    rw [hnone]; rfl

/-- C8 witness: a path with two unresolved placeholders raises the aggregated
error naming both `x` and `y`, not just the first. -/
theorem executeTool_missing_aggregated_witness :
    executeToolRequest (initializedState exSecret [gmailConn]) (some exAction) []
        twoVarParams =
      Except.error (PicaErr.missingVariables ["x".data, "y".data]) := by
  have h := (executeTool_missing_aggregated (initializedState exSecret [gmailConn])
    exAction [] twoVarParams "x".data (by decide) (by decide) rfl rfl).1
  exact h.trans (by rfl)

/-- C9: for each required path variable (the required names being distinct)
that the body object holds with a truthy value while the path-variables object
does not, the move step puts exactly that value into the path-variables
object and deletes the key from the body, and every body key outside the
required names keeps its value; and, end to end, executing the action with
path `/messages/\x7b\x7bid\x7d\x7d`, body `\x7bid:"42", subject:"hi"\x7d` and
no explicit path variables dispatches to the passthrough URL ending in
`/messages/42` with the raw JSON body `\x7bsubject:"hi"\x7d`. -/
theorem executeTool_moves_body_vars :
    (∀ (required : List Str) (fields : List (Str × JValue))
        (pv : Option (List (Str × JValue))) (v : Str) (x : JValue),
        required.Nodup → v ∈ required →
        jsLookup fields v = some x → truthy x = true →
        truthyOpt (jsLookup (pv.getD []) v) = false →
        jsLookup ((moveVarsObj required fields pv).2.getD []) v = some x ∧
        jsLookup (moveVarsObj required fields pv).1 v = none) ∧
    (∀ (required : List Str) (fields : List (Str × JValue))
        (pv : Option (List (Str × JValue))) (k : Str), k ∉ required →
        jsLookup (moveVarsObj required fields pv).1 k = jsLookup fields k) ∧
    (executeToolRequest (initializedState exSecret [gmailConn]) (some exAction) []
        exParams).map (fun cfg => (cfg.url, cfg.data)) =
      Except.ok
        ("https://api.picaos.com/v1/passthrough/messages/42".data,
         some (BodyData.raw
           (DataPayload.obj [("subject".data, JValue.jStr "hi".data)]))) := by
  refine ⟨?_, ?_, rfl⟩
  · intro required fields pv v x hnd hv hf hx hpv
    exact moveVarsObj_moves required fields pv v x hnd hv hf hx hpv
  · intro required fields pv k hk
    exact (moveVarsObj_stable required fields pv k hk).1

/-- C9 witness: the move step on the example body moves `id` into the path
variables, removes it from the body, and leaves `subject` unchanged. -/
theorem executeTool_moves_body_vars_witness :
    jsLookup ((moveVarsObj ["id".data]
        [("id".data, JValue.jStr "42".data), ("subject".data, JValue.jStr "hi".data)]
        none).2.getD []) "id".data = some (JValue.jStr "42".data) ∧
    jsLookup (moveVarsObj ["id".data]
        [("id".data, JValue.jStr "42".data), ("subject".data, JValue.jStr "hi".data)]
        none).1 "id".data = none ∧
    jsLookup (moveVarsObj ["id".data]
        [("id".data, JValue.jStr "42".data), ("subject".data, JValue.jStr "hi".data)]
        none).1 "subject".data =
      jsLookup [("id".data, JValue.jStr "42".data),
        ("subject".data, JValue.jStr "hi".data)] "subject".data :=
  ⟨(executeTool_moves_body_vars.1 ["id".data]
      [("id".data, JValue.jStr "42".data), ("subject".data, JValue.jStr "hi".data)]
      none "id".data (JValue.jStr "42".data)
      (by decide) (by decide) rfl (by decide) rfl).1,
   (executeTool_moves_body_vars.1 ["id".data]
      [("id".data, JValue.jStr "42".data), ("subject".data, JValue.jStr "hi".data)]
      none "id".data (JValue.jStr "42".data)
      (by decide) (by decide) rfl (by decide) rfl).2,
   executeTool_moves_body_vars.2.1 ["id".data]
      [("id".data, JValue.jStr "42".data), ("subject".data, JValue.jStr "hi".data)]
      none "subject".data (by decide)⟩

/-- C3 amended witness: both branches of the gate evaluated at a concrete
connection list. -/
theorem surfacedConnections_gate_witness :
    surfacedConnections [gmailConn] (some []) = [] ∧
    surfacedConnections [gmailConn] (some ["*".data]) =
      ([gmailConn].filter (fun c => c.active)).filter
        (fun c => decide (c.key = "*".data)) :=
  ⟨surfacedConnections_gate.1 [gmailConn], surfacedConnections_gate.2 [gmailConn]⟩

/-- C4 amended witness: with an empty connections array, a concrete call fails
with the connection-not-found error. -/
theorem executeTool_connection_check_witness :
    executeToolRequest (initializedState exSecret []) (some exAction) [] plainParams =
      Except.error (PicaErr.connectionNotFound "gmail".data) :=
  (executeTool_connection_check (initializedState exSecret []) (some exAction) []
    plainParams).mpr (by decide)

/-- C5 amended witness: a concrete pre-initialization call fails with the
connection-not-found error. -/
theorem executeTool_preInit_witness :
    executeToolRequest (constructorState exSecret) (some exAction) [] plainParams =
      Except.error (PicaErr.connectionNotFound "gmail".data) :=
  executeTool_preInit exSecret (some exAction) [] plainParams
